import Mathlib

/-!
Verification of the log-viewer's parsing core.

The definitions below are a shallow embedding of `src/utils/logParser.ts`
(batch parser, line parser, payload splitter, metadata scanner) and of the
metadata-column construction in `src/utils/facets.ts`.  Strings are modelled
as `List Char`; the imperative while-loops of the source are modelled as
structurally recursive functions on an explicit fuel argument that is
instantiated, at each wrapper, with a bound larger than the number of
iterations the loop can perform (each loop strictly advances its index, so
`length + 1` steps always suffice).
-/

namespace LogViewer

/-- Membership in the ECMAScript whitespace class: the characters matched by
the regex class `\s` and stripped by `String.prototype.trim`. -/
def isSpaceJs (c : Char) : Bool :=
  c == ' ' || c == '\t' || c == '\n' || c == '\r' || c == '\x0b' || c == '\x0c' ||
  c == ' ' || c == ' ' || ((' ' ≤ c) && (c ≤ ' ')) ||
  c == ' ' || c == ' ' || c == ' ' || c == ' ' ||
  c == '　' || c == '﻿'

/-- ECMAScript line terminators: the characters that the regex `.` does not
match. -/
def isLineTerm (c : Char) : Bool :=
  c == '\n' || c == '\r' || c == ' ' || c == ' '

/-- Strip trailing ECMAScript whitespace, as `String.prototype.trimEnd`. -/
def trimEnd (l : List Char) : List Char :=
  (l.reverse.dropWhile isSpaceJs).reverse

/-- Strip leading and trailing ECMAScript whitespace, as
`String.prototype.trim`. -/
def trim (l : List Char) : List Char :=
  trimEnd (l.dropWhile isSpaceJs)

/-- The character class `KEY_CHAR_REGEX = /[A-Za-z0-9_.-]/` of
`logParser.ts`. -/
def keyChar (c : Char) : Bool :=
  c.isAlpha || c.isDigit || c == '_' || c == '.' || c == '-'

/-- Character of `l` at index `i`; every index access in the source is
bounds-guarded, so the default is never observed. -/
def chAt (l : List Char) (i : Nat) : Char :=
  l.getD i '\x00'

/-- Index reached from `i` by skipping the characters satisfying `p`
(the `while (j < length && p(s[j])) j++` idiom of the source). -/
def skipWhileFrom (p : Char → Bool) (l : List Char) (i : Nat) : Nat :=
  i + ((l.drop i).takeWhile p).length

/-- Skip literal space characters, as the `=== ' '` loops of the source. -/
def skipSpacesFrom (l : List Char) (i : Nat) : Nat :=
  skipWhileFrom (fun c => c == ' ') l i

/-- Skip `KEY_CHAR_REGEX` characters. -/
def skipKeyFrom (l : List Char) (i : Nat) : Nat :=
  skipWhileFrom keyChar l i

/-- Embedding of `isKeyAhead` from `logParser.ts`: skip spaces, scan a run of
key characters, and require a `=` right after the run.  Note that the source
checks `keyStart < block.length`, not `keyStart < index`, so an empty
identifier run immediately followed by `=` is accepted. -/
def isKeyAhead (block : List Char) (start : Nat) : Bool :=
  let keyStart := skipSpacesFrom block start
  let idx := skipKeyFrom block keyStart
  decide (keyStart < block.length) && decide (idx < block.length) &&
    (chAt block idx == '=')

/-- First loop of `findMetadataStart`: scan for two consecutive spaces
followed (after skipping the whole run of spaces) by a key start.  The fuel
argument bounds the number of iterations of the `for` loop. -/
def fmsDoubleLoop (payload : List Char) : Nat → Nat → Option Nat
  | 0, _ => none
  | fuel + 1, i =>
    if i < payload.length - 1 then
      if chAt payload i == ' ' && chAt payload (i + 1) == ' ' then
        let j := skipSpacesFrom payload i
        if isKeyAhead payload j then some j else fmsDoubleLoop payload fuel (i + 1)
      else fmsDoubleLoop payload fuel (i + 1)
    else none

/-- Second loop of `findMetadataStart`: scan for a single space followed by a
key start. -/
def fmsSingleLoop (payload : List Char) : Nat → Nat → Option Nat
  | 0, _ => none
  | fuel + 1, i =>
    if i < payload.length then
      if chAt payload i == ' ' then
        let j := skipSpacesFrom payload i
        if isKeyAhead payload j then some j else fmsSingleLoop payload fuel (i + 1)
      else fmsSingleLoop payload fuel (i + 1)
    else none

/-- Embedding of `findMetadataStart` from `logParser.ts`; `none` models the
`-1` sentinel of the source. -/
def findMetadataStart (payload : List Char) : Option Nat :=
  if isKeyAhead payload 0 then some 0
  else
    match fmsDoubleLoop payload (payload.length + 1) 0 with
    | some j => some j
    | none => fmsSingleLoop payload (payload.length + 1) 0

/-- One bracket-depth update step of `readValue`: each of the three counters
is incremented on its opening bracket and decremented on its closing bracket
only when positive. -/
def bumpDepths (d : Nat × Nat × Nat) (c : Char) : Nat × Nat × Nat :=
  if c == '(' then (d.1 + 1, d.2.1, d.2.2)
  else if c == ')' then (if d.1 > 0 then (d.1 - 1, d.2.1, d.2.2) else d)
  else if c == '[' then (d.1, d.2.1 + 1, d.2.2)
  else if c == ']' then (if d.2.1 > 0 then (d.1, d.2.1 - 1, d.2.2) else d)
  else if c == '{' then (d.1, d.2.1, d.2.2 + 1)
  else if c == '}' then (if d.2.2 > 0 then (d.1, d.2.1, d.2.2 - 1) else d)
  else d

/-- The scanning loop of `readValue`: starting at `idx` with depth counters
`d`, return the index at which the loop stops — the first space at all-zero
depth that is followed by a key start, or the end of the block. -/
def rvStop (block : List Char) : Nat → Nat → Nat × Nat × Nat → Nat
  | 0, idx, _ => idx
  | fuel + 1, idx, d =>
    if idx < block.length then
      let c := chAt block idx
      let d' := bumpDepths d c
      if c == ' ' && decide (d' = (0, 0, 0)) && isKeyAhead block (idx + 1) then idx
      else rvStop block fuel (idx + 1) d'
    else idx

/-- The `String.prototype.slice(a, b)` of the source (for `0 ≤ a ≤ b`). -/
def slice (l : List Char) (a b : Nat) : List Char :=
  (l.take b).drop a

/-- Embedding of `readValue` from `logParser.ts`: the scanned value (with
trailing whitespace stripped) together with the index at which scanning
stopped. -/
def readValue (block : List Char) (startIndex : Nat) : List Char × Nat :=
  let stop := rvStop block (block.length + 1) startIndex (0, 0, 0)
  (trimEnd (slice block startIndex stop), stop)

/-- Assignment `metadata[key] = value` on a JavaScript object modelled as an
insertion-ordered association list: an existing key keeps its position and
gets the new value, a new key is appended. -/
def recordSet (m : List (List Char × List Char)) (key value : List Char) :
    List (List Char × List Char) :=
  if m.any (fun p => decide (p.1 = key)) then
    m.map (fun p => if p.1 = key then (key, value) else p)
  else m ++ [(key, value)]

/-- The `while` loop of `parseMetadata`, carrying the metadata object built
so far.  Each iteration skips spaces, scans a key run, requires `=`, reads a
value and stores it; when the key run is not followed by `=` the loop breaks
and returns the accumulator unchanged. -/
def parseMetadataAux (block : List Char) :
    Nat → Nat → List (List Char × List Char) → List (List Char × List Char)
  | 0, _, acc => acc
  | fuel + 1, idx, acc =>
    if idx < block.length then
      let keyStart := skipSpacesFrom block idx
      let keyEnd := skipKeyFrom block keyStart
      if keyEnd < block.length ∧ chAt block keyEnd = '=' then
        let key := slice block keyStart keyEnd
        let v := readValue block (keyEnd + 1)
        parseMetadataAux block fuel v.2 (recordSet acc key (trim v.1))
      else acc
    else acc

/-- Embedding of `parseMetadata` from `logParser.ts`. -/
def parseMetadata (block : List Char) : List (List Char × List Char) :=
  parseMetadataAux block (block.length + 1) 0 []

/-- Embedding of `splitPayload` from `logParser.ts`. -/
def splitPayload (payload : List Char) : List Char × List (List Char × List Char) :=
  if payload.isEmpty then ([], [])
  else
    match findMetadataStart payload with
    | none => (trim payload, [])
    | some s => (trimEnd (payload.take s), parseMetadata (trim (payload.drop s)))

/-- The `lastIndexOf(':')` of `parseLocation`; `none` models `-1`. -/
def lastIndexOfColon (l : List Char) : Option Nat :=
  match l.reverse.findIdx? (fun c => c == ':') with
  | some k => some (l.length - 1 - k)
  | none => none

/-- Numeric value of a decimal digit string, as the JavaScript `Number`
conversion applied to the digit-only strings the source builds. -/
def digitsVal (l : List Char) : Nat :=
  l.foldl (fun a c => a * 10 + (c.toNat - 48)) 0

/-- Embedding of `parseLocation` from `logParser.ts`: split the bracketed
source block at its last colon; keep only the digits of the part after the
colon. -/
def parseLocation (block : List Char) : List Char × Option Nat :=
  match lastIndexOfColon block with
  | none => (trim block, none)
  | some colonIndex =>
    let filePart := trim (block.take colonIndex)
    let linePart := (block.drop (colonIndex + 1)).filter (fun c => c.isDigit)
    (filePart, if linePart.isEmpty then none else some (digitsVal linePart))

/-- Take exactly `n` characters satisfying `p`, returning them and the rest. -/
def takeExact (p : Char → Bool) (n : Nat) (l : List Char) :
    Option (List Char × List Char) :=
  let t := l.take n
  if t.length = n ∧ t.all p then some (t, l.drop n) else none

/-- Take a non-empty maximal run of characters satisfying `p` (the greedy
`p+` of the regex), returning it and the rest. -/
def takeMany1 (p : Char → Bool) (l : List Char) : Option (List Char × List Char) :=
  let t := l.takeWhile p
  if t.isEmpty then none else some (t, l.drop t.length)

/-- Require the next character to be `c`. -/
def expectChar (c : Char) : List Char → Option (List Char)
  | [] => none
  | x :: xs => if x = c then some xs else none

/-- Numeric timestamp fields as decoded by the ECMAScript `Date` constructor
from a date-time string of the shape captured by the first regex group. -/
structure JsDate where
  year : Nat
  month : Nat
  day : Nat
  hour : Nat
  minute : Nat
  second : Nat
  fracDigits : List Char
deriving DecidableEq

/-- Scanner for the `YYYY-MM-DD` part of the timestamp group. -/
def scanTsDatePart (l : List Char) :
    Option ((List Char × List Char × List Char) × List Char) := do
  let (y, r) ← takeExact Char.isDigit 4 l
  let r ← expectChar '-' r
  let (mo, r) ← takeExact Char.isDigit 2 r
  let r ← expectChar '-' r
  let (dd, r) ← takeExact Char.isDigit 2 r
  pure ((y, mo, dd), r)

/-- Scanner for the `THH:MM:SS` part of the timestamp group. -/
def scanTsTimePart (l : List Char) :
    Option ((List Char × List Char × List Char) × List Char) := do
  let r ← expectChar 'T' l
  let (hh, r) ← takeExact Char.isDigit 2 r
  let r ← expectChar ':' r
  let (mi, r) ← takeExact Char.isDigit 2 r
  let r ← expectChar ':' r
  let (ss, r) ← takeExact Char.isDigit 2 r
  pure ((hh, mi, ss), r)

/-- Scanner for the `.fff…Z` part of the timestamp group (a dot, one or more
fraction digits, a literal Z). -/
def scanTsFracPart (l : List Char) : Option (List Char × List Char) := do
  let r ← expectChar '.' l
  let (fr, r) ← takeMany1 Char.isDigit r
  let r ← expectChar 'Z' r
  pure (fr, r)

/-- Scanner for the timestamp group of `LOG_LINE_REGEX` (four digits, dash,
two digits, dash, two digits, T, three colon-separated two-digit groups, a
dot, one or more digits, Z): returns the decoded fields, the exact consumed
substring (the regex capture) and the rest of the line.  Every quantifier of
this group is deterministic, so a greedy scan without backtracking is
faithful. -/
def scanTimestamp (l : List Char) : Option (JsDate × List Char × List Char) := do
  let (d, r) ← scanTsDatePart l
  let (t, r) ← scanTsTimePart r
  let (fr, r) ← scanTsFracPart r
  let consumed :=
    d.1 ++ '-' :: (d.2.1 ++ '-' :: (d.2.2 ++ 'T' :: (t.1 ++ ':' :: (t.2.1 ++ ':' ::
      (t.2.2 ++ '.' :: (fr ++ ['Z']))))))
  pure (⟨digitsVal d.1, digitsVal d.2.1, digitsVal d.2.2, digitsVal t.1,
    digitsVal t.2.1, digitsVal t.2.2, fr⟩, consumed, r)

/-- Proleptic-Gregorian leap-year rule used by ECMAScript dates. -/
def isLeapYear (y : Nat) : Bool :=
  decide ((y % 4 = 0 ∧ y % 100 ≠ 0) ∨ y % 400 = 0)

/-- Number of days of month `m` (1-based) of year `y`. -/
def daysInMonth (y m : Nat) : Nat :=
  if m = 2 then (if isLeapYear y then 29 else 28)
  else if m = 4 ∨ m = 6 ∨ m = 9 ∨ m = 11 then 30
  else 31

/-- Calendar validity of a date-time string as checked by the ECMAScript
`Date` constructor: month and day in range (with leap years), minutes and
seconds below 60, and the hour below 24 except for the midnight-24 form. -/
def jsDateValid (f : JsDate) : Bool :=
  decide (1 ≤ f.month ∧ f.month ≤ 12 ∧ 1 ≤ f.day ∧
    f.day ≤ daysInMonth f.year f.month ∧ f.minute ≤ 59 ∧ f.second ≤ 59 ∧
    (f.hour ≤ 23 ∨ (f.hour = 24 ∧ f.minute = 0 ∧ f.second = 0 ∧
      ∀ c ∈ f.fracDigits, c = '0')))

/-- Embedding of `parseTimestamp` from `logParser.ts`.  The ECMAScript
`new Date(value)` call is modelled for the date-time strings this program
feeds it (the shape captured by the timestamp group): the result is the
decoded fields when the string is calendrically valid, and `none` (the `NaN`
time value) otherwise. -/
def parseTimestamp (value : List Char) : Option JsDate :=
  match scanTimestamp value with
  | some (f, _, []) => if jsDateValid f then some f else none
  | _ => none

/-- One `\s+\[([^\]]+)\]` segment of `LOG_LINE_REGEX`: one or more whitespace
characters, an opening bracket, a non-empty run of non-`]` characters (the
capture) and a closing bracket. -/
def scanBracketBlock (l : List Char) : Option (List Char × List Char) := do
  let (_, r) ← takeMany1 isSpaceJs l
  let r ← expectChar '[' r
  let (b, r) ← takeMany1 (fun c => !(c == ']')) r
  let r ← expectChar ']' r
  pure (b, r)

/-- The tail of the regex after the second bracket block: one or more
whitespace characters, then `(.*)$` — the rest of the line, which the dot
quantifier can only match when it contains no line terminator. -/
def scanPayload (l : List Char) : Option (List Char) := do
  let (_, r) ← takeMany1 isSpaceJs l
  if r.all (fun c => !(isLineTerm c)) then pure r else none

/-- Embedding of `LOG_LINE_REGEX` matching: the anchored four-segment grammar
of `logParser.ts`.  Every quantified piece of the regex is deterministic
(digit runs before non-digit literals, non-`]` runs before `]`, whitespace
runs before `[`), so greedy scanning without backtracking is faithful. -/
def matchLogLine (line : List Char) :
    Option (List Char × List Char × List Char × List Char) := do
  let (_, ts, r) ← scanTimestamp line
  let (lvl, r) ← scanBracketBlock r
  let (loc, r) ← scanBracketBlock r
  let payload ← scanPayload r
  pure (ts, lvl, loc, payload)

/-- Decimal digit character (defined for `n < 10`). -/
def digitChar (n : Nat) : Char :=
  match n with
  | 0 => '0' | 1 => '1' | 2 => '2' | 3 => '3' | 4 => '4'
  | 5 => '5' | 6 => '6' | 7 => '7' | 8 => '8' | _ => '9'

/-- Decimal representation of a natural number, with fuel (`n + 1` steps
always suffice since the argument is divided by ten each step). -/
def natCharsAux : Nat → Nat → List Char
  | 0, _ => []
  | fuel + 1, n =>
    if n < 10 then [digitChar n]
    else natCharsAux fuel (n / 10) ++ [digitChar (n % 10)]

/-- Decimal representation of a natural number, as JavaScript template-string
interpolation of a non-negative integer produces it. -/
def natChars (n : Nat) : List Char :=
  natCharsAux (n + 1) n

/-- The normalized log record produced for one matched line (the `LogEntry`
interface of `types.ts`). -/
structure LogEntry where
  id : List Char
  raw : List Char
  timestampRaw : List Char
  timestamp : Option JsDate
  level : List Char
  sourceFile : List Char
  sourceLine : Option Nat
  message : List Char
  metadata : List (List Char × List Char)
deriving DecidableEq

/-- Embedding of `parseLine` from `logParser.ts`. -/
def parseLine (line : List Char) (index : Nat) : Option LogEntry :=
  match matchLogLine line with
  | none => none
  | some (tsRaw, lvlRaw, locRaw, payload) =>
    let loc := parseLocation locRaw
    let mp := splitPayload payload
    some
      { id := tsRaw ++ '-' :: natChars index
        raw := line
        timestampRaw := tsRaw
        timestamp := parseTimestamp tsRaw
        level := (trim lvlRaw).map Char.toLower
        sourceFile := loc.1
        sourceLine := loc.2
        message := mp.1
        metadata := mp.2 }

/-- The batch output (the `ParseResult` interface of `types.ts`). -/
structure ParseResult where
  entries : List LogEntry
  skipped : Nat
deriving DecidableEq

/-- The `lines.forEach` accumulation of `parseLogText`, carrying the index of
the first line of the remaining list. -/
def parseLines : List (List Char) → Nat → ParseResult
  | [], _ => ⟨[], 0⟩
  | l :: rest, index =>
    let r := parseLines rest (index + 1)
    let trimmed := trim l
    if trimmed.isEmpty then r
    else
      match parseLine trimmed index with
      | some e => ⟨e :: r.entries, r.skipped⟩
      | none => ⟨r.entries, r.skipped + 1⟩

/-- The split on bare or carriage-return-prefixed line breaks
(`raw.split of regex carriage-return optional newline`), as head line plus
remaining lines. -/
def splitLinesCore : List Char → List Char × List (List Char)
  | [] => ([], [])
  | '\r' :: '\n' :: rest =>
    let p := splitLinesCore rest
    ([], p.1 :: p.2)
  | '\n' :: rest =>
    let p := splitLinesCore rest
    ([], p.1 :: p.2)
  | c :: rest =>
    let p := splitLinesCore rest
    (c :: p.1, p.2)

/-- The list of lines of the raw text (always non-empty, as the JavaScript
`split`). -/
def splitLines (raw : List Char) : List (List Char) :=
  let p := splitLinesCore raw
  p.1 :: p.2

/-- Embedding of `parseLogText` from `logParser.ts`. -/
def parseLogText (raw : List Char) : ParseResult :=
  parseLines (splitLines raw) 0

/-- Embedding of `sanitizeKey` from `facets.ts`: replace every character
outside `[A-Za-z0-9_]` by an underscore, collapse every run of two or more
underscores to one (the right-to-left fold keeps an underscore only when the
character kept to its right is not an underscore, which is the same
replacement the global regex performs), strip leading and trailing
underscores, fall back to `field` when empty, prefix digit-leading names with
`f_` (returned without lowercasing, as in the source), else lowercase. -/
def sanitizeKey (key : List Char) : List Char :=
  let replaced := key.map (fun c => if c.isAlpha || c.isDigit || c == '_' then c else '_')
  let collapsed :=
    replaced.foldr (fun c acc => if c == '_' && acc.head? == some '_' then acc else c :: acc) []
  let stripped :=
    ((collapsed.dropWhile (fun c => c == '_')).reverse.dropWhile (fun c => c == '_')).reverse
  let trimmed := if stripped.isEmpty then "field".data else stripped
  if (trimmed.headD ' ').isDigit then "f_".data ++ trimmed
  else trimmed.map Char.toLower

/-- One generated metadata column of the tabular projection: its column name
and the metadata key it was generated from (`name` and `originalKey` of the
`FacetColumn` records built by `buildFacetView`). -/
structure MetaCol where
  name : List Char
  originalKey : List Char
deriving DecidableEq

/-- Candidate column name `base_s` tried by the collision loop of
`ensureColumn`. -/
def candName (base : List Char) (s : Nat) : List Char :=
  base ++ '_' :: natChars s

/-- The `while (metadataColumnMap.has(candidate))` suffix search of
`ensureColumn`: the first suffix, counted from 2, whose candidate name is not
yet a key of the column map.  The map has `m.length` entries, so some suffix
among the first `m.length + 1` candidates is always free and the fallback
value is never used. -/
def firstFreeSuffix (m : List MetaCol) (base : List Char) : Nat :=
  ((((List.range (m.length + 1)).map (fun k => k + 2)).find?
    (fun s => (m.find? (fun c => decide (c.name = candName base s))).isNone)).getD
    (m.length + 2))

/-- Embedding of `ensureColumn` from `buildFacetView` in `facets.ts`, on the
column map modelled as an insertion-ordered list keyed by `name`: reuse the
base column when it is absent or was generated from the same key, otherwise
append a fresh suffixed column. -/
def ensureColumn (m : List MetaCol) (key : List Char) : List MetaCol × List Char :=
  let base := "meta_".data ++ sanitizeKey key
  match m.find? (fun c => decide (c.name = base)) with
  | none => (m ++ [⟨base, key⟩], base)
  | some existing =>
    if existing.originalKey = key then (m, base)
    else
      let s := firstFreeSuffix m base
      (m ++ [⟨candName base s, key⟩], candName base s)

/-- The metadata-column construction of `buildFacetView` in `facets.ts`: the
rows are mapped in order and `ensureColumn` is called for each metadata key
in its insertion order.  The generated columns depend only on this key
sequence, so the row-value projection (which only feeds `coerceValue`) is not
needed to reason about the generated columns. -/
def buildFacetColumns (logs : List LogEntry) : List MetaCol :=
  logs.foldl (fun m log => log.metadata.foldl (fun m kv => (ensureColumn m kv.1).1) m) []

/-- Specification-faithful key-start look-ahead, following the words of the
spec: skip spaces, scan a run of identifier characters, and the position is a
valid key start only when that run is NON-EMPTY (`keyStart < idx`) and is
immediately followed by `=`.  This differs from the program's `isKeyAhead`
exactly at empty identifier runs (the C6 bug). -/
def isValidKeyStart (block : List Char) (start : Nat) : Bool :=
  let keyStart := skipSpacesFrom block start
  let idx := skipKeyFrom block keyStart
  decide (keyStart < idx) && decide (idx < block.length) &&
    (chAt block idx == '=')

/-- The bracket-depth counters in force just before reading the character at
index `i`, obtained by folding the depth update over the characters of
`block` from `start` (where all counters are zero) up to `i` exclusive. -/
def depthsBefore (block : List Char) (start i : Nat) : Nat × Nat × Nat :=
  (slice block start i).foldl bumpDepths (0, 0, 0)

/-- Amended-claim boundary predicate for the value scanner: index `i` ends
the value started at `start` when it holds a space at which all three depth
counters are zero (the space itself leaves the counters unchanged) and the
PROGRAM'S key look-ahead `isKeyAhead` — which, unlike the spec's valid
key-start, accepts an empty identifier run before `=` (the C6 bug) —
succeeds after the space. -/
def valueQualifies (block : List Char) (start i : Nat) : Bool :=
  chAt block i == ' ' &&
  decide (bumpDepths (depthsBefore block start i) (chAt block i) = (0, 0, 0)) &&
  isKeyAhead block (i + 1)

/-- Amended-claim value boundary: the value started at `start` ends exactly
at the first space satisfying `valueQualifies` (the program's look-ahead),
and extends to the end of the block when no space qualifies. -/
def valueEndSpec (block : List Char) (start : Nat) : Nat :=
  (((List.range' start (block.length - start)).find?
    (valueQualifies block start)).getD block.length)

/-- Specification-faithful value boundary predicate, following the words of
the spec: a space at all-zero depth followed by a VALID key start (non-empty
identifier run, `isValidKeyStart`). -/
def valueQualifiesValid (block : List Char) (start i : Nat) : Bool :=
  chAt block i == ' ' &&
  decide (bumpDepths (depthsBefore block start i) (chAt block i) = (0, 0, 0)) &&
  isValidKeyStart block (i + 1)

/-- Specification-faithful value boundary, following the words of the spec:
the first space at all-zero depth followed by a valid key start, or the end
of the block when no space qualifies. -/
def valueEndValid (block : List Char) (start : Nat) : Nat :=
  (((List.range' start (block.length - start)).find?
    (valueQualifiesValid block start)).getD block.length)

/-- Amended-claim predicate: position `i` starts a run of two or more
consecutive spaces that is followed, after skipping the whole run, by a
position the PROGRAM'S look-ahead `isKeyAhead` accepts (empty identifier
runs included — the C6 bug). -/
def doubleSpaceQualifies (payload : List Char) (i : Nat) : Bool :=
  chAt payload i == ' ' && chAt payload (i + 1) == ' ' &&
  isKeyAhead payload (skipSpacesFrom payload i)

/-- Amended-claim boundary: the position after the first double-space run the
program's look-ahead accepts. -/
def doubleSpaceBoundary (payload : List Char) : Option Nat :=
  ((List.range (payload.length - 1)).find? (doubleSpaceQualifies payload)).map
    (fun i => skipSpacesFrom payload i)

/-- Amended-claim predicate: position `i` holds a space followed by a
position the program's look-ahead accepts. -/
def singleSpaceQualifies (payload : List Char) (i : Nat) : Bool :=
  chAt payload i == ' ' && isKeyAhead payload (skipSpacesFrom payload i)

/-- Amended-claim boundary: the position after the first single space the
program's look-ahead accepts. -/
def singleSpaceBoundary (payload : List Char) : Option Nat :=
  ((List.range payload.length).find? (singleSpaceQualifies payload)).map
    (fun i => skipSpacesFrom payload i)

/-- Specification-faithful double-space boundary, following the words of the
spec: the position after the first run of two or more spaces followed by a
VALID key start (non-empty identifier run). -/
def doubleSpaceBoundaryValid (payload : List Char) : Option Nat :=
  ((List.range (payload.length - 1)).find? (fun i =>
    chAt payload i == ' ' && chAt payload (i + 1) == ' ' &&
    isValidKeyStart payload (skipSpacesFrom payload i))).map
    (fun i => skipSpacesFrom payload i)

/-- Specification-faithful single-space boundary, following the words of the
spec: the position after the first single space followed by a VALID key
start (non-empty identifier run). -/
def singleSpaceBoundaryValid (payload : List Char) : Option Nat :=
  ((List.range payload.length).find? (fun i =>
    chAt payload i == ' ' &&
    isValidKeyStart payload (skipSpacesFrom payload i))).map
    (fun i => skipSpacesFrom payload i)

/-- The line index encoded in an entry id: the value of the decimal digits
after the last dash.  The decimal suffix contains no dash, so this is a left
inverse of the id construction whatever the timestamp part contains. -/
def decodeIdx (l : List Char) : Nat :=
  digitsVal ((l.reverse.takeWhile (fun c => c ≠ '-')).reverse)

/-- A three-line input whose metadata keys are `A`, `a` and `a`: both keys
sanitize to the same column base name, and the key `a` occurs in two rows. -/
def collideSample : List Char :=
  ("2024-04-12T05:41:11.337Z [info] [a.py:1] m A=1\n" ++
   "2024-04-12T05:41:12.337Z [info] [a.py:1] m a=2\n" ++
   "2024-04-12T05:41:13.337Z [info] [a.py:1] m a=3").data

/-! ## Theorems -/

example :
    parseLine ("2024-04-12T05:41:11.337Z [info] [agents/tools.py:71] tool_call status=ok latency_ms=212".data) 0 =
    some
      { id := "2024-04-12T05:41:11.337Z-0".data
        raw := "2024-04-12T05:41:11.337Z [info] [agents/tools.py:71] tool_call status=ok latency_ms=212".data
        timestampRaw := "2024-04-12T05:41:11.337Z".data
        timestamp := some ⟨2024, 4, 12, 5, 41, 11, "337".data⟩
        level := "info".data
        sourceFile := "agents/tools.py".data
        sourceLine := some 71
        message := "tool_call".data
        metadata := [("status".data, "ok".data), ("latency_ms".data, "212".data)] } := by
  decide

example : parseLogText ("not a log line at all".data) = ⟨[], 1⟩ := by decide

example : parseMetadata ("a=1 a=2".data) = [("a".data, "2".data)] := by decide

/-- The accumulation of `parseLines` over a line list starting at index `i`:
the entries are exactly the successful parses of the trimmed non-blank lines
in input order, and entries plus skips partition the non-blank lines. -/
theorem parseLines_spec (ls : List (List Char)) (i : Nat) :
    (parseLines ls i).entries =
      (ls.enumFrom i).filterMap (fun p =>
        if (trim p.2).isEmpty then none else parseLine (trim p.2) p.1) ∧
    (parseLines ls i).entries.length + (parseLines ls i).skipped =
      (ls.filter (fun l => !(trim l).isEmpty)).length := by
  induction ls generalizing i with
  | nil => simp [parseLines]
  | cons l ls ih =>
    obtain ⟨ih1, ih2⟩ := ih (i + 1)
    by_cases hb : trim l = []
    · constructor
      · simp [parseLines, hb, ih1]
      · simp [parseLines, hb, ih2]
    · cases hp : parseLine (trim l) i with
      | none =>
        have hb' : (trim l).isEmpty = false := by simp [hb]
        constructor
        · simp [parseLines, hb, hp, ih1]
        · simp only [parseLines, hb', hp, List.filter_cons, Bool.not_false, if_true,
            Bool.false_eq_true, if_false, List.length_cons]
          omega
      | some e =>
        have hb' : (trim l).isEmpty = false := by simp [hb]
        constructor
        · simp [parseLines, hb, hp, ih1]
        · simp only [parseLines, hb', hp, List.filter_cons, Bool.not_false, if_true,
            Bool.false_eq_true, if_false, List.length_cons]
          omega

/-- C1: the batch parser splits on bare or carriage-return-prefixed breaks;
blank or whitespace-only lines contribute neither an entry nor a skip; every
other line yields exactly one entry (appended in input-line order) or exactly
one skip, so entries plus skips count the non-blank lines. -/
theorem claim1_batch_split_and_counts (raw : List Char) :
    (parseLogText raw).entries =
      ((splitLines raw).enum.filterMap (fun p =>
        if (trim p.2).isEmpty then none else parseLine (trim p.2) p.1)) ∧
    (parseLogText raw).entries.length + (parseLogText raw).skipped =
      ((splitLines raw).filter (fun l => !(trim l).isEmpty)).length :=
  parseLines_spec (splitLines raw) 0

/-- C4: a line that matches the structural grammar but whose captured
timestamp is not a valid calendar timestamp is still parsed into an entry
whose `timestamp` is absent and whose `timestampRaw` is the exact captured
substring — timestamp validity never turns a structural match into a
rejection. -/
theorem claim4_invalid_timestamp_still_accepted (line : List Char) (index : Nat)
    (ts lvl loc payload : List Char)
    (hm : matchLogLine line = some (ts, lvl, loc, payload))
    (ht : parseTimestamp ts = none) :
    ∃ e, parseLine line index = some e ∧ e.timestamp = none ∧ e.timestampRaw = ts := by
  simp only [parseLine, hm]
  exact ⟨_, rfl, ht, rfl⟩

/-- Witness for C4 at the spec's third example, whose month field is 99. -/
theorem claim4_witness :
    ∃ e, parseLine ("2024-99-99T00:00:00.000Z [warn] [a.py:1] hi".data) 0 = some e ∧
      e.timestamp = none ∧ e.timestampRaw = "2024-99-99T00:00:00.000Z".data :=
  claim4_invalid_timestamp_still_accepted
    ("2024-99-99T00:00:00.000Z [warn] [a.py:1] hi".data) 0
    ("2024-99-99T00:00:00.000Z".data) ("warn".data) ("a.py:1".data) ("hi".data)
    (by decide) (by decide)

/-- C5 (code bug): a line with timestamp, level and source segments but
nothing after the second bracketed block does not match `LOG_LINE_REGEX`,
because the regex demands at least one whitespace character between the
source block and the payload group; the batch parser therefore counts such a
line as skipped instead of producing an entry with an empty message. -/
theorem claim5_empty_payload_line_rejected :
    matchLogLine ("2024-04-12T05:41:11.337Z [info] [a.py:1]".data) = none ∧
    parseLogText ("2024-04-12T05:41:11.337Z [info] [a.py:1]".data) = ⟨[], 1⟩ := by
  decide

/-- C6 (code bug): `isKeyAhead` misses the non-emptiness check on the
identifier run (`keyStart < block.length` instead of `keyStart < index`), so
the payload `=5` is treated as a metadata block starting at position 0 and is
parsed into an entry with an empty message and an empty-string metadata key,
instead of being kept whole as message text with empty metadata. -/
theorem claim6_empty_key_run_starts_metadata :
    isKeyAhead ("=5".data) 0 = true ∧
    splitPayload ("=5".data) = ([], [([], "5".data)]) := by
  decide

/-- C7: whenever the key=value scan reaches a state where the identifier run
after the skipped spaces is not immediately followed by `=`, the metadata
loop stops and returns the accumulated mapping unchanged — the pairs parsed
so far are retained and the whole unscanned remainder is dropped. -/
theorem claim7_malformed_tail_stops (block : List Char) (fuel idx : Nat)
    (acc : List (List Char × List Char))
    (h : ¬ (skipKeyFrom block (skipSpacesFrom block idx) < block.length ∧
      chAt block (skipKeyFrom block (skipSpacesFrom block idx)) = '=')) :
    parseMetadataAux block fuel idx acc = acc := by
  cases fuel with
  | zero => rfl
  | succ fuel =>
    simp only [parseMetadataAux, if_neg h, ite_self]

/-- Witness for C7: the block `zz%` has a key run not followed by `=`, and
the loop, entered with one already-parsed pair, returns exactly that pair. -/
theorem claim7_witness :
    (¬ (skipKeyFrom ("zz%".data) (skipSpacesFrom ("zz%".data) 0) < ("zz%".data).length ∧
      chAt ("zz%".data) (skipKeyFrom ("zz%".data) (skipSpacesFrom ("zz%".data) 0)) = '=')) ∧
    parseMetadataAux ("zz%".data) 4 0 [("a".data, "1".data)] = [("a".data, "1".data)] :=
  ⟨by decide, claim7_malformed_tail_stops ("zz%".data) 4 0 [("a".data, "1".data)] (by decide)⟩

/-- C9 (code bug): when two distinct keys collide to the same sanitized
column name, every occurrence of the later key in a further row allocates yet
another suffixed column, because the suffix search only tests name existence
and never recognises the column it created for that key before; the distinct
key `a` here ends up with two generated columns. -/
theorem claim9_colliding_key_gets_duplicate_columns :
    buildFacetColumns (parseLogText collideSample).entries =
      [⟨"meta_a".data, "A".data⟩, ⟨"meta_a_2".data, "a".data⟩,
        ⟨"meta_a_3".data, "a".data⟩] ∧
    ((buildFacetColumns (parseLogText collideSample).entries).filter
      (fun c => decide (c.originalKey = "a".data))).length = 2 := by
  decide

/-- C10: when the third bracketed block contains no colon, the line is still
parsed and the whole block, trimmed, becomes `sourceFile` while `sourceLine`
is absent. -/
theorem claim10_no_colon_location (block : List Char) (h : ':' ∉ block) :
    parseLocation block = (trim block, none) := by
  have hf : block.reverse.findIdx? (fun c => c == ':') = none := by
    rw [List.findIdx?_eq_none_iff]
    intro x hx
    have hxm : x ∈ block := List.mem_reverse.mp hx
    exact beq_eq_false_iff_ne.mpr (fun hcol => h (hcol ▸ hxm))
  simp [parseLocation, lastIndexOfColon, hf]

/-- Witness for C10 on a colon-free source block. -/
theorem claim10_witness :
    (':' ∉ ("a.py".data)) ∧ parseLocation ("a.py".data) = (trim ("a.py".data), none) :=
  ⟨by decide, claim10_no_colon_location ("a.py".data) (by decide)⟩

/-- The double-space loop of `findMetadataStart` returns, for the first
position opening a two-space run that is followed by a key start, the index
just after that run of spaces. -/
theorem fmsDoubleLoop_eq (payload : List Char) :
    ∀ (fuel i : Nat), payload.length - 1 - i < fuel →
      fmsDoubleLoop payload fuel i =
        ((List.range' i (payload.length - 1 - i)).find?
          (doubleSpaceQualifies payload)).map (fun k => skipSpacesFrom payload k) := by
  intro fuel
  induction fuel with
  | zero => omega
  | succ fuel ih =>
    intro i hfuel
    by_cases hi : i < payload.length - 1
    · have hc : payload.length - 1 - i = (payload.length - 1 - (i + 1)) + 1 := by omega
      rw [hc, List.range'_succ]
      by_cases hsp : (chAt payload i == ' ' && chAt payload (i + 1) == ' ') = true
      · by_cases hkey : isKeyAhead payload (skipSpacesFrom payload i) = true
        · have hq : doubleSpaceQualifies payload i = true := by
            simp only [doubleSpaceQualifies]
            simp only [Bool.and_eq_true] at hsp ⊢
            exact ⟨hsp, hkey⟩
          rw [List.find?_cons_of_pos _ hq]
          simp only [fmsDoubleLoop, if_pos hi, hsp, if_true, hkey, Option.map_some']
        · have hq : ¬ doubleSpaceQualifies payload i = true := by
            simp only [doubleSpaceQualifies, Bool.and_eq_true]
            exact fun h => hkey h.2
          rw [List.find?_cons_of_neg _ hq]
          simp only [fmsDoubleLoop, if_pos hi, hsp, if_true, hkey, if_false]
          exact ih (i + 1) (by omega)
      · have hq : ¬ doubleSpaceQualifies payload i = true := by
          simp only [doubleSpaceQualifies, Bool.and_eq_true]
          simp only [Bool.and_eq_true] at hsp
          exact fun h => hsp h.1
        rw [List.find?_cons_of_neg _ hq]
        have hstep : fmsDoubleLoop payload (fuel + 1) i = fmsDoubleLoop payload fuel (i + 1) := by
          simp only [fmsDoubleLoop, if_pos hi]
          rw [if_neg (by simpa using hsp)]
        rw [hstep]
        exact ih (i + 1) (by omega)
    · have hz : payload.length - 1 - i = 0 := by omega
      rw [hz]
      simp only [fmsDoubleLoop, if_neg hi, List.range'_zero, List.find?_nil, Option.map_none']

/-- The single-space loop of `findMetadataStart` returns, for the first space
followed by a key start, the index just after the run of spaces it opens. -/
theorem fmsSingleLoop_eq (payload : List Char) :
    ∀ (fuel i : Nat), payload.length - i < fuel →
      fmsSingleLoop payload fuel i =
        ((List.range' i (payload.length - i)).find?
          (singleSpaceQualifies payload)).map (fun k => skipSpacesFrom payload k) := by
  intro fuel
  induction fuel with
  | zero => omega
  | succ fuel ih =>
    intro i hfuel
    by_cases hi : i < payload.length
    · have hc : payload.length - i = (payload.length - (i + 1)) + 1 := by omega
      rw [hc, List.range'_succ]
      by_cases hsp : (chAt payload i == ' ') = true
      · by_cases hkey : isKeyAhead payload (skipSpacesFrom payload i) = true
        · have hq : singleSpaceQualifies payload i = true := by
            simp only [singleSpaceQualifies, Bool.and_eq_true]
            exact ⟨hsp, hkey⟩
          rw [List.find?_cons_of_pos _ hq]
          simp only [fmsSingleLoop, if_pos hi, hsp, if_true, hkey, Option.map_some']
        · have hq : ¬ singleSpaceQualifies payload i = true := by
            simp only [singleSpaceQualifies, Bool.and_eq_true]
            exact fun h => hkey h.2
          rw [List.find?_cons_of_neg _ hq]
          simp only [fmsSingleLoop, if_pos hi, hsp, if_true, hkey, if_false]
          exact ih (i + 1) (by omega)
      · have hq : ¬ singleSpaceQualifies payload i = true := by
          simp only [singleSpaceQualifies, Bool.and_eq_true]
          exact fun h => hsp h.1
        rw [List.find?_cons_of_neg _ hq]
        have hstep : fmsSingleLoop payload (fuel + 1) i = fmsSingleLoop payload fuel (i + 1) := by
          simp only [fmsSingleLoop, if_pos hi]
          rw [if_neg (by simpa using hsp)]
        rw [hstep]
        exact ih (i + 1) (by omega)
    · have hz : payload.length - i = 0 := by omega
      rw [hz]
      simp only [fmsSingleLoop, if_neg hi, List.range'_zero, List.find?_nil, Option.map_none']

/-- C3 counterexample, refuting the claim as stated: in the payload `m  =5`
no position is a valid key start in the spec's sense (the only `=` is
preceded by an empty identifier run), so per the claim the entire payload is
the message and metadata is empty; the code instead places the boundary at
index 3 through the empty-run-accepting look-ahead and returns message `m`
with an empty-string metadata key. -/
theorem claim3_counterexample :
    isValidKeyStart ("m  =5".data) 0 = false ∧
    doubleSpaceBoundaryValid ("m  =5".data) = none ∧
    singleSpaceBoundaryValid ("m  =5".data) = none ∧
    splitPayload ("m  =5".data) = ("m".data, [([], "5".data)]) ∧
    splitPayload ("m  =5".data) ≠ (trim ("m  =5".data), []) := by
  decide

/-- C3 as amended: when the program's key look-ahead (which accepts an empty
identifier run before `=`, the C6 bug) fails at position 0, the metadata
boundary is the first double-space boundary the look-ahead accepts when one
exists (even when an earlier single-space boundary occurs), else the first
single-space boundary it accepts, and when neither exists the whole payload
is the trimmed message with empty metadata. -/
theorem claim3_boundary_precedence (payload : List Char)
    (h : isKeyAhead payload 0 = false) :
    (findMetadataStart payload =
      match doubleSpaceBoundary payload with
      | some j => some j
      | none => singleSpaceBoundary payload) ∧
    ((doubleSpaceBoundary payload = none ∧ singleSpaceBoundary payload = none) →
      splitPayload payload = (trim payload, [])) := by
  have hdbl : fmsDoubleLoop payload (payload.length + 1) 0 = doubleSpaceBoundary payload := by
    rw [fmsDoubleLoop_eq payload (payload.length + 1) 0 (by omega)]
    simp [doubleSpaceBoundary, List.range_eq_range']
  have hsgl : fmsSingleLoop payload (payload.length + 1) 0 = singleSpaceBoundary payload := by
    rw [fmsSingleLoop_eq payload (payload.length + 1) 0 (by omega)]
    simp [singleSpaceBoundary, List.range_eq_range']
  have hfind : findMetadataStart payload =
      match doubleSpaceBoundary payload with
      | some j => some j
      | none => singleSpaceBoundary payload := by
    simp only [findMetadataStart, h, Bool.false_eq_true, if_false, hdbl, hsgl]
  refine ⟨hfind, fun hnone => ?_⟩
  have hnone' : findMetadataStart payload = none := by
    rw [hfind, hnone.1, hnone.2]
  by_cases hemp : payload.isEmpty
  · have : payload = [] := by simpa [List.isEmpty_iff] using hemp
    subst this
    simp [splitPayload, trim, trimEnd]
  · simp [splitPayload, hemp, hnone']

/-- Witness for C3 on the payload `a b=1  c=2`: the single-space boundary at
index 2 is skipped in favour of the later double-space boundary at index 7,
and the payload splits into message `a b=1` and metadata `c=2`. -/
theorem claim3_witness :
    isKeyAhead ("a b=1  c=2".data) 0 = false ∧
    (findMetadataStart ("a b=1  c=2".data) =
      match doubleSpaceBoundary ("a b=1  c=2".data) with
      | some j => some j
      | none => singleSpaceBoundary ("a b=1  c=2".data)) ∧
    singleSpaceBoundary ("a b=1  c=2".data) = some 2 ∧
    doubleSpaceBoundary ("a b=1  c=2".data) = some 7 ∧
    splitPayload ("a b=1  c=2".data) = ("a b=1".data, [("c".data, "2".data)]) :=
  ⟨by decide, (claim3_boundary_precedence ("a b=1  c=2".data) (by decide)).1,
    by decide, by decide, by decide⟩

theorem slice_cons (l : List Char) (a b : Nat) (hab : a < b) (hal : a < l.length) :
    slice l a b = chAt l a :: slice l (a + 1) b := by
  have hlen : a < (l.take b).length := by
    rw [List.length_take]; omega
  unfold slice
  rw [List.drop_eq_getElem_cons hlen]
  congr 1
  rw [List.getElem_take]
  unfold chAt
  rw [List.getD_eq_getElem?_getD, List.getElem?_eq_getElem hal]
  rfl

theorem find?_congr_mem {α : Type} (p q : α → Bool) :
    ∀ l : List α, (∀ a ∈ l, p a = q a) → l.find? p = l.find? q := by
  intro l
  induction l with
  | nil => simp
  | cons x xs ih =>
    intro h
    have hx := h x (by simp)
    by_cases hp : p x = true
    · rw [List.find?_cons_of_pos _ hp, List.find?_cons_of_pos _ (hx ▸ hp)]
    · rw [List.find?_cons_of_neg _ hp, List.find?_cons_of_neg _ (by rw [← hx]; exact hp)]
      exact ih (fun a ha => h a (by simp [ha]))

/-- The value-scanning loop started at `idx` with counters `d` stops at the
first index holding a space at which the (floored) depth counters reach
all-zero and a key start follows, and at the end of the block when no such
index exists. -/
theorem rvStop_eq_find (block : List Char) :
    ∀ (fuel idx : Nat) (d : Nat × Nat × Nat),
      block.length - idx < fuel → idx ≤ block.length →
      rvStop block fuel idx d =
        (((List.range' idx (block.length - idx)).find? (fun i =>
          chAt block i == ' ' &&
          decide (bumpDepths ((slice block idx i).foldl bumpDepths d) (chAt block i) = (0, 0, 0)) &&
          isKeyAhead block (i + 1))).getD block.length) := by
  intro fuel
  induction fuel with
  | zero => omega
  | succ fuel ih =>
    intro idx d hfuel hle
    by_cases hi : idx < block.length
    · have hc : block.length - idx = (block.length - (idx + 1)) + 1 := by omega
      rw [hc, List.range'_succ]
      have hslice0 : slice block idx idx = [] := by
        simp [slice, ← List.take_drop]
      by_cases hcond : (chAt block idx == ' ' &&
          decide (bumpDepths d (chAt block idx) = (0, 0, 0)) &&
          isKeyAhead block (idx + 1)) = true
      · rw [List.find?_cons_of_pos _ (by simpa [hslice0] using hcond), Option.getD_some]
        simp only [rvStop, if_pos hi]
        rw [if_pos hcond]
      · rw [List.find?_cons_of_neg _ (by simpa [hslice0] using hcond)]
        have hstep : rvStop block (fuel + 1) idx d =
            rvStop block fuel (idx + 1) (bumpDepths d (chAt block idx)) := by
          simp only [rvStop, if_pos hi]
          rw [if_neg hcond]
        rw [hstep, ih (idx + 1) (bumpDepths d (chAt block idx)) (by omega) (by omega)]
        have hcongr : ∀ i ∈ List.range' (idx + 1) (block.length - (idx + 1)),
            (chAt block i == ' ' &&
              decide (bumpDepths ((slice block (idx + 1) i).foldl bumpDepths
                (bumpDepths d (chAt block idx))) (chAt block i) = (0, 0, 0)) &&
              isKeyAhead block (i + 1)) =
            (chAt block i == ' ' &&
              decide (bumpDepths ((slice block idx i).foldl bumpDepths d) (chAt block i) = (0, 0, 0)) &&
              isKeyAhead block (i + 1)) := by
          intro i hmem
          have hrange := List.mem_range'_1.mp hmem
          have hshift : (slice block idx i).foldl bumpDepths d =
              (slice block (idx + 1) i).foldl bumpDepths (bumpDepths d (chAt block idx)) := by
            rw [slice_cons block idx i (by omega) hi]
            rfl
          rw [hshift]
        rw [find?_congr_mem _ _ _ hcongr]
    · have hz : block.length - idx = 0 := by omega
      have : rvStop block (fuel + 1) idx d = idx := by
        simp only [rvStop, if_neg hi]
      rw [this, hz]
      simp only [List.range'_zero, List.find?_nil, Option.getD_none]
      omega

/-- C2 counterexample, refuting the claim as stated: in the block `x=1 =2`,
scanning the value of `x` from index 2, the space at index 3 is not followed
by a valid key start in the spec's sense (the run before `=2` is empty), so
per the claim that space is part of the value and the value runs to the end
of the block (index 6, value `1 =2`); the code instead stops at index 3 and
returns the value `1`, because its look-ahead accepts the empty run. -/
theorem claim2_counterexample :
    isValidKeyStart ("x=1 =2".data) 4 = false ∧
    valueEndValid ("x=1 =2".data) 2 = 6 ∧
    readValue ("x=1 =2".data) 2 = ("1".data, 3) ∧
    (readValue ("x=1 =2".data) 2).2 ≠ valueEndValid ("x=1 =2".data) 2 := by
  decide

/-- C2 as amended: the value read after a `=` ends exactly at the first space
at which all three bracket-depth counters (maintained with a floor at zero,
so unclosed brackets never fail) are zero and the program's key look-ahead —
which accepts an empty identifier run before `=`, the C6 bug, instead of the
spec's non-empty valid key start — succeeds; spaces at positive depth or at
which the look-ahead fails stay inside the value. -/
theorem claim2_value_scan_boundary (block : List Char) (start : Nat)
    (h : start ≤ block.length) :
    (readValue block start).2 = valueEndSpec block start ∧
    (readValue block start).1 = trimEnd (slice block start (valueEndSpec block start)) := by
  have hmain := rvStop_eq_find block (block.length + 1) start (0, 0, 0) (by omega) h
  constructor
  · simpa [readValue, valueEndSpec, valueQualifies, depthsBefore] using hmain
  · have hstop : rvStop block (block.length + 1) start (0, 0, 0) = valueEndSpec block start := by
      simpa [valueEndSpec, valueQualifies, depthsBefore] using hmain
    have h1 : (readValue block start).1 =
        trimEnd (slice block start (rvStop block (block.length + 1) start (0, 0, 0))) := rfl
    rw [h1, hstop]

/-- Witness for C2: inside the value `cfg=` followed by the JSON-like blob
with internal spaces, the scan runs to the space before `next=5` and the blob
is captured whole. -/
theorem claim2_witness :
    (4 ≤ ("cfg=\x7b\"a\": 1, \"b\": [1,2]\x7d next=5".data).length) ∧
    (readValue ("cfg=\x7b\"a\": 1, \"b\": [1,2]\x7d next=5".data) 4).2 =
      valueEndSpec ("cfg=\x7b\"a\": 1, \"b\": [1,2]\x7d next=5".data) 4 ∧
    parseMetadata ("cfg=\x7b\"a\": 1, \"b\": [1,2]\x7d next=5".data) =
      [("cfg".data, "\x7b\"a\": 1, \"b\": [1,2]\x7d".data), ("next".data, "5".data)] :=
  ⟨by decide,
    (claim2_value_scan_boundary ("cfg=\x7b\"a\": 1, \"b\": [1,2]\x7d next=5".data) 4
      (by decide)).1,
    by decide⟩

theorem digitChar_ne_dash (n : Nat) : digitChar n ≠ '-' := by
  unfold digitChar
  split <;> decide

theorem digitChar_toNat : ∀ n < 10, (digitChar n).toNat = 48 + n := by decide

theorem natCharsAux_ne_dash :
    ∀ (fuel n : Nat), ∀ c ∈ natCharsAux fuel n, c ≠ '-' := by
  intro fuel
  induction fuel with
  | zero => intro n c hc; simp [natCharsAux] at hc
  | succ fuel ih =>
    intro n c hc
    unfold natCharsAux at hc
    split at hc
    · simp only [List.mem_singleton] at hc
      exact hc ▸ digitChar_ne_dash n
    · rcases List.mem_append.mp hc with h | h
      · exact ih _ c h
      · simp only [List.mem_singleton] at h
        exact h ▸ digitChar_ne_dash (n % 10)

theorem digitsVal_append_singleton (xs : List Char) (c : Char) :
    digitsVal (xs ++ [c]) = digitsVal xs * 10 + (c.toNat - 48) := by
  simp [digitsVal, List.foldl_append]

theorem natCharsAux_val : ∀ (fuel n : Nat), n < fuel →
    digitsVal (natCharsAux fuel n) = n := by
  intro fuel
  induction fuel with
  | zero => omega
  | succ fuel ih =>
    intro n hn
    unfold natCharsAux
    split
    · rename_i h10
      have := digitChar_toNat n h10
      simp [digitsVal, this]
    · rename_i h10
      rw [digitsVal_append_singleton, ih (n / 10) (by omega)]
      have := digitChar_toNat (n % 10) (by omega)
      omega

theorem takeWhile_append_stop (p : Char → Bool) :
    ∀ (xs ys : List Char) (y : Char), (∀ c ∈ xs, p c = true) → p y = false →
      (xs ++ y :: ys).takeWhile p = xs := by
  intro xs ys y hall hy
  induction xs with
  | nil => simp [List.takeWhile_cons, hy]
  | cons x xs ih =>
    have hx : p x = true := hall x (by simp)
    simp only [List.cons_append, List.takeWhile_cons, hx, if_true]
    rw [ih (fun c hc => hall c (by simp [hc]))]

theorem decodeIdx_round_trip (ts : List Char) (n : Nat) :
    decodeIdx (ts ++ '-' :: natChars n) = n := by
  unfold decodeIdx
  have hrev : (ts ++ '-' :: natChars n).reverse =
      (natChars n).reverse ++ '-' :: ts.reverse := by
    simp [List.reverse_append]
  rw [hrev, takeWhile_append_stop _ _ _ _ ?all (by decide)]
  · rw [List.reverse_reverse]
    exact natCharsAux_val (n + 1) n (by omega)
  · intro c hc
    have : c ≠ '-' := natCharsAux_ne_dash (n + 1) n c (List.mem_reverse.mp hc)
    simpa using this

theorem parseLine_decodeIdx (line : List Char) (i : Nat) (e : LogEntry)
    (h : parseLine line i = some e) : decodeIdx e.id = i := by
  cases hm : matchLogLine line with
  | none => simp [parseLine, hm] at h
  | some q =>
    obtain ⟨ts, lvl, loc, payload⟩ := q
    simp only [parseLine, hm] at h
    obtain rfl := (Option.some_inj.mp h).symm
    exact decodeIdx_round_trip ts i

theorem parseLines_index_lb :
    ∀ (ls : List (List Char)) (i : Nat), ∀ e ∈ (parseLines ls i).entries,
      i ≤ decodeIdx e.id := by
  intro ls
  induction ls with
  | nil => intro i e he; simp [parseLines] at he
  | cons l rest ih =>
    intro i e he
    simp only [parseLines] at he
    split at he
    · exact Nat.le_of_succ_le (ih (i + 1) e he)
    · cases hp : parseLine (trim l) i with
      | none =>
        rw [hp] at he
        exact Nat.le_of_succ_le (ih (i + 1) e he)
      | some e0 =>
        rw [hp] at he
        rcases List.mem_cons.mp he with rfl | hmem
        · exact (parseLine_decodeIdx _ _ _ hp).ge
        · exact Nat.le_of_succ_le (ih (i + 1) e hmem)

theorem parseLines_pairwise_lt :
    ∀ (ls : List (List Char)) (i : Nat),
      (parseLines ls i).entries.Pairwise
        (fun a b => decodeIdx a.id < decodeIdx b.id) := by
  intro ls
  induction ls with
  | nil => intro i; simp [parseLines]
  | cons l rest ih =>
    intro i
    simp only [parseLines]
    split
    · exact ih (i + 1)
    · cases hp : parseLine (trim l) i with
      | none => exact ih (i + 1)
      | some e0 =>
        refine List.Pairwise.cons ?_ (ih (i + 1))
        intro b hb
        have h1 : decodeIdx e0.id = i := parseLine_decodeIdx _ _ _ hp
        have h2 : i + 1 ≤ decodeIdx b.id := parseLines_index_lb rest (i + 1) b hb
        omega

/-- C8: within one parse batch all entry ids are pairwise distinct — each id
carries the entry's line index as the decimal suffix after its last dash, so
two entries (even with identical timestamps) always differ. -/
theorem claim8_ids_pairwise_distinct (raw : List Char) :
    (parseLogText raw).entries.Pairwise (fun a b => a.id ≠ b.id) := by
  refine (parseLines_pairwise_lt (splitLines raw) 0).imp ?_
  intro a b hlt heq
  rw [heq] at hlt
  exact Nat.lt_irrefl _ hlt

end LogViewer
